import Mathlib

/-!
Verification of the DocuFlow AI page-extraction pipeline.

Shallow embedding of the repository's core logic:
* `src/App.tsx` — the pipeline controller (`processFile`, `reset`,
  `combinedContent`) over `ProcessingState`;
* `src/services/geminiService.ts` — `extractContentFromPage`;
* `src/services/evaluatorService.tsx` — `processAndEvaluate`;
* the shared types (`PageExtraction`, `ProcessingState`).

The external collaborators (pdf.js document source, the Gemini backends and
the JSON built-in of the host runtime) are modelled as oracles collected in
an environment record; every `await` of the source either yields the
oracle's value or propagates its failure, exactly following the source's
try/catch structure.  Each `setState` call of the source is one published
state: a run is embedded as the list of published states together with the
final state.
-/

namespace DocuFlow

/-- `PageExtraction.status` values, from `src/types` (`unnamed/part_000`). -/
inductive PageStatus where
  | pending
  | processing
  | completed
  | error
deriving DecidableEq, Repr

/-- One per-page record, from the `PageExtraction` interface in `src/types`. -/
structure PageExtraction where
  pageNumber : Nat
  content : String
  status : PageStatus
  imageUrl : Option String
deriving DecidableEq, Repr

/-- `ProcessingState.status` values, from `src/types`. -/
inductive PipeStatus where
  | idle
  | loading
  | processing
  | completed
  | error
deriving DecidableEq, Repr

/-- The aggregate pipeline snapshot, from the `ProcessingState` interface in
`src/types`.  The source stores the page records in the field `results`. -/
structure ProcessingState where
  status : PipeStatus
  totalPages : Nat
  currentPage : Nat
  results : List PageExtraction
  errorMessage : Option String
deriving DecidableEq, Repr

/-- The initial component state, from the `useState` initializer in
`src/App.tsx` (also the state produced by `reset`). -/
def initialState : ProcessingState :=
  { status := .idle, totalPages := 0, currentPage := 0, results := [],
    errorMessage := none }

/-- The body of `reset` in `src/App.tsx` (the part acting on the
`ProcessingState`): it replaces the state wholesale with the initial one. -/
def resetUpdate (_s : ProcessingState) : ProcessingState :=
  { status := .idle, totalPages := 0, currentPage := 0, results := [],
    errorMessage := none }

/-- The oracle environment: results of the external calls made during one
run.  `getPageCount`, `getPageAsDataUrl` and `getPageAsImage` come from
`src/services/pdfProcessor.ts`; `geminiResponse i` is the Gemini backend's
response text for the page-`i` call issued by `extractContentFromPage`
(`response.text`, absent when the response carries no text); `apiKey` is
`process.env.API_KEY` read by `extractContentFromPage`.  `.error ()` models
a rejected promise / thrown error. -/
structure Env where
  getPageCount : Except Unit Nat
  getPageAsDataUrl : Nat → Except Unit String
  getPageAsImage : Nat → Except Unit String
  geminiResponse : Nat → Except Unit (Option String)
  apiKey : Option String

/-- JavaScript `a || fallback` on an (optional) string: the fallback is used
when the value is absent (`undefined`) or the empty string (falsy). -/
def jsOr (t : Option String) (fallback : String) : String :=
  match t with
  | none => fallback
  | some s => if s = "" then fallback else s

/-- `extractContentFromPage` from `src/services/geminiService.ts`: throws
when the API key is missing, otherwise calls the backend and returns
`response.text || "No content extracted."`; a backend failure is re-thrown
unchanged. -/
def extractContentFromPage (apiKey : Option String)
    (resp : Except Unit (Option String)) : Except Unit String :=
  match apiKey with
  | none => .error ()
  | some _ =>
    match resp with
    | .ok t => .ok (jsOr t "No content extracted.")
    | .error e => .error e

/-- The body of the inner `try` of the loop in `processFile`
(`src/App.tsx`): `getPageAsImage` followed by `extractContentFromPage`;
a failure of either is what the inner `catch` receives. -/
def pageExtract (env : Env) (i : Nat) : Except Unit String :=
  match env.getPageAsImage i with
  | .error e => .error e
  | .ok _ => extractContentFromPage env.apiKey (env.geminiResponse i)

/-- First `setState` of `processFile`: `{ ...prev, status: 'loading',
errorMessage: undefined }`. -/
def initUpdate (s : ProcessingState) : ProcessingState :=
  { s with status := .loading, errorMessage := none }

/-- `Array.from({ length: count }, (_, i) => ({ pageNumber: i + 1,
content: '', status: 'pending' }))` from `processFile`. -/
def mkPendingPages (count : Nat) : List PageExtraction :=
  (List.range count).map (fun i =>
    { pageNumber := i + 1, content := "", status := .pending,
      imageUrl := none })

/-- Second `setState` of `processFile`: transition to `processing`, record
the page count, set `currentPage` to 1 and allocate all page records as
`pending`. -/
def allocUpdate (count : Nat) (s : ProcessingState) : ProcessingState :=
  { s with
    status := .processing
    totalPages := count
    currentPage := 1
    results := mkPendingPages count }

/-- The `setState` published after the preview render of page `i`: set
`currentPage := i` and mark page `i` as `processing` with its preview
image attached. -/
def previewUpdate (i : Nat) (img : String) (s : ProcessingState) :
    ProcessingState :=
  { s with
    currentPage := i
    results := s.results.map (fun r =>
      if r.pageNumber = i then
        { r with status := .processing, imageUrl := some img }
      else r) }

/-- The `setState` published after a successful extraction of page `i`. -/
def successUpdate (i : Nat) (text : String) (s : ProcessingState) :
    ProcessingState :=
  { s with results := s.results.map (fun r =>
      if r.pageNumber = i then
        { r with content := text, status := .completed }
      else r) }

/-- The `setState` published by the inner `catch` for page `i`. -/
def failUpdate (i : Nat) (s : ProcessingState) : ProcessingState :=
  { s with results := s.results.map (fun r =>
      if r.pageNumber = i then
        { r with content := "Failed to extract content.", status := .error }
      else r) }

/-- The `setState` published after the loop: `{ ...prev,
status: 'completed' }`. -/
def completeUpdate (s : ProcessingState) : ProcessingState :=
  { s with status := .completed }

/-- The `setState` published by the outer `catch` of `processFile`. -/
def fatalUpdate (s : ProcessingState) : ProcessingState :=
  { s with
    status := .error
    errorMessage := some "Failed to process file. Make sure it is a valid PDF." }

/-- The `for (let i = 1; i <= count; i++)` loop of `processFile`, pages `i`
to `i + rem - 1`, followed by the completion `setState`; returns the list of
published states and the final state.  A preview-render failure escapes to
the outer `catch` (`fatalUpdate`) and ends the run; an inner-try failure is
handled per page and the loop continues. -/
def loopAux (env : Env) (i : Nat) :
    Nat → ProcessingState → List ProcessingState × ProcessingState
  | 0, s => ([completeUpdate s], completeUpdate s)
  | rem + 1, s =>
    match env.getPageAsDataUrl i with
    | .error _ => ([fatalUpdate s], fatalUpdate s)
    | .ok img =>
      let s1 := previewUpdate i img s
      match pageExtract env i with
      | .ok text =>
        let s2 := successUpdate i text s1
        let rest := loopAux env (i + 1) rem s2
        (s1 :: s2 :: rest.1, rest.2)
      | .error _ =>
        let s2 := failUpdate i s1
        let rest := loopAux env (i + 1) rem s2
        (s1 :: s2 :: rest.1, rest.2)

/-- `processFile` from `src/App.tsx`, as the sequence of published states
together with the final state, starting from state `s0`.  A `getPageCount`
failure goes to the outer `catch`. -/
def processFile (env : Env) (s0 : ProcessingState) :
    List ProcessingState × ProcessingState :=
  let sL := initUpdate s0
  match env.getPageCount with
  | .error _ => ([sL, fatalUpdate sL], fatalUpdate sL)
  | .ok count =>
    let rest := loopAux env 1 count (allocUpdate count sL)
    (sL :: allocUpdate count sL :: rest.1, rest.2)

/-- The sequence of state-updater functions `prev => ...` that `processFile`
passes to `setState` during the loop, in order.  Which updaters occur is
determined by the environment (the promises), not by the state, exactly as
in the source. -/
def loopUpdaters (env : Env) (i : Nat) :
    Nat → List (ProcessingState → ProcessingState)
  | 0 => [completeUpdate]
  | rem + 1 =>
    match env.getPageAsDataUrl i with
    | .error _ => [fatalUpdate]
    | .ok img =>
      match pageExtract env i with
      | .ok text =>
        previewUpdate i img :: successUpdate i text ::
          loopUpdaters env (i + 1) rem
      | .error _ =>
        previewUpdate i img :: failUpdate i ::
          loopUpdaters env (i + 1) rem

/-- All state-updater functions `processFile` passes to `setState`, in
order. -/
def runUpdaters (env : Env) : List (ProcessingState → ProcessingState) :=
  initUpdate ::
    match env.getPageCount with
    | .error _ => [fatalUpdate]
    | .ok count => allocUpdate count :: loopUpdaters env 1 count

/-- Applying a list of state updaters sequentially, collecting every
intermediate state (the semantics of a chain of `setState(prev => ...)`
calls). -/
def statesOf (us : List (ProcessingState → ProcessingState))
    (s : ProcessingState) : List ProcessingState :=
  match us with
  | [] => []
  | u :: rest => u s :: statesOf rest (u s)

/-- The state after applying a list of state updaters sequentially. -/
def applyAll (us : List (ProcessingState → ProcessingState))
    (s : ProcessingState) : ProcessingState :=
  us.foldl (fun t u => u t) s

/-- `combinedContent` from `src/App.tsx`: contents of the `completed`
records of `results`, in `results` order, joined with `"\n\n"`. -/
def combinedContent (s : ProcessingState) : String :=
  String.intercalate "\n\n"
    ((s.results.filter (fun r => r.status == .completed)).map
      (fun r => r.content))

/-- Lookup of the record of page `p` in a record list (first record whose
`pageNumber` is `p`). -/
def recordOfList (rs : List PageExtraction) (p : Nat) :
    Option PageExtraction :=
  rs.find? (fun r => r.pageNumber == p)

/-- Lookup of the record of page `p` in a state. -/
def recordOf (s : ProcessingState) (p : Nat) : Option PageExtraction :=
  recordOfList s.results p

/-- The combined transcript as the specification words it: walk the page
numbers `1..totalPages` in order, keep the `content` of exactly the pages
whose status is `completed`, join with a blank-line separator. -/
def specCombined (s : ProcessingState) : String :=
  String.intercalate "\n\n"
    ((List.range' 1 s.totalPages).filterMap (fun p =>
      match recordOf s p with
      | some r => if r.status == .completed then some r.content else none
      | none => none))

/-! ### The evaluator service (`src/services/evaluatorService.tsx`) -/

/-- JSON values, the result type of the host runtime's JSON parser. -/
inductive Json where
  | null
  | bool (b : Bool)
  | num (q : Int)
  | str (s : String)
  | arr (elems : List Json)
  | obj (fields : List (String × Json))

/-- Oracles for one `processAndEvaluate` call: `generate` is the result of
the `ai.models.generateContent` call (failure message, or the optional
`response.text`); `parse` is the host runtime's `JSON.parse` (throws on
invalid input). -/
structure EvalEnv where
  generate : Except String (Option String)
  parse : String → Except Unit Json

/-- `processAndEvaluate` from `src/services/evaluatorService.tsx`: a
`generateContent` failure propagates unchanged (the `try` does not cover
it); otherwise `JSON.parse(response.text || "{}")` is returned as the
report without any shape validation (`result as EvaluationReport`), and
only a parse failure is replaced by the typed error message. -/
def processAndEvaluate (env : EvalEnv) : Except String Json :=
  match env.generate with
  | .error e => .error e
  | .ok text =>
    match env.parse (jsOr text "\x7b\x7d") with
    | .ok j => .ok j
    | .error _ => .error "Failed to process evaluation report."

/-- Field lookup in a parsed JSON object. -/
def getField (fields : List (String × Json)) (k : String) : Option Json :=
  (fields.find? (fun f => f.1 == k)).map (fun f => f.2)

/-- Whether a JSON value is a string. -/
def isStr : Json → Bool
  | .str _ => true
  | _ => false

/-- Whether a JSON value is a number. -/
def isNum : Json → Bool
  | .num _ => true
  | _ => false

/-- Whether a field of an object exists and satisfies a check. -/
def fieldIs (fields : List (String × Json)) (k : String)
    (check : Json → Bool) : Bool :=
  match getField fields k with
  | some v => check v
  | none => false

/-- A well-formed `EvaluationItem` (from the `EvaluationItem` interface in
`src/types` and the `responseSchema` required fields in
`src/services/evaluatorService.tsx`). -/
def wellFormedItem : Json → Bool
  | .obj fs =>
    fieldIs fs "id" isStr && fieldIs fs "questionNumber" isStr &&
    fieldIs fs "questionText" isStr && fieldIs fs "modelAnswer" isStr &&
    fieldIs fs "studentAnswer" isStr && fieldIs fs "score" isNum &&
    fieldIs fs "maxScore" isNum && fieldIs fs "feedback" isStr
  | _ => false

/-- A well-formed `EvaluationReport` (from the `EvaluationReport` interface
in `src/types` and the `responseSchema` required fields). -/
def wellFormedReport : Json → Bool
  | .obj fs =>
    (match getField fs "items" with
     | some (.arr xs) => xs.all wellFormedItem
     | _ => false) &&
    fieldIs fs "totalScore" isNum && fieldIs fs "maxPossibleScore" isNum &&
    fieldIs fs "summary" isStr &&
    (match getField fs "improvementAreas" with
     | some (.arr xs) => xs.all isStr
     | _ => false)
  | _ => false

/-- All records of the list with page number at least `i` are pending. -/
def PendingFromList (i : Nat) (rs : List PageExtraction) : Prop :=
  ∀ r ∈ rs, i ≤ r.pageNumber → r.status = .pending

/-- All pages from index `i` on are still pending in state `s`. -/
def PendingFrom (i : Nat) (s : ProcessingState) : Prop :=
  PendingFromList i s.results

/-- Legal one-step evolutions of a single page record between consecutive
published states: unchanged, pending to processing, or processing to a
terminal status. -/
def recOk (r r' : PageExtraction) : Prop :=
  r' = r ∨ (r.status = .pending ∧ r'.status = .processing) ∨
    (r.status = .processing ∧
      (r'.status = .completed ∨ r'.status = .error))

/-- Lift of `recOk` to optional records: a page that does not exist yet may
appear (allocation), but an existing page never disappears and must evolve
by `recOk`. -/
def optRecOk : Option PageExtraction → Option PageExtraction → Prop
  | none, _ => True
  | some _, none => False
  | some r, some r' => recOk r r'

/-- Every page evolves legally between two given states. -/
def StepOk (s s' : ProcessingState) : Prop :=
  ∀ p, optRecOk (recordOf s p) (recordOf s' p)

/-- The record of page `j` after its loop iteration, as a function of its
record before the iteration and the preview image: completed with the
extracted text on success, `error` with the placeholder text on failure;
either way the preview image is attached. -/
def processedRec (env : Env) (j : Nat) (img : String)
    (r : PageExtraction) : PageExtraction :=
  match pageExtract env j with
  | .ok t =>
    { r with
      status := .completed
      content := t
      imageUrl := some img }
  | .error _ =>
    { r with
      status := .error
      content := "Failed to extract content."
      imageUrl := some img }


/-! ### Concrete environments for witnesses and counterexamples -/

/-- A 2-page document for which every external call succeeds. -/
def envA : Env :=
  { getPageCount := .ok 2
    getPageAsDataUrl := fun _ => .ok "preview"
    getPageAsImage := fun _ => .ok "image"
    geminiResponse := fun _ => .ok (some "hello")
    apiKey := some "key" }

/-- A 2-page document whose Gemini extraction call fails on every page
(renders succeed). -/
def envFail : Env :=
  { getPageCount := .ok 2
    getPageAsDataUrl := fun _ => .ok "preview"
    getPageAsImage := fun _ => .ok "image"
    geminiResponse := fun _ => .error ()
    apiKey := some "key" }

/-- A 2-page document whose extraction-quality render (`getPageAsImage`)
fails on page 1 while every preview render succeeds. -/
def envImgFail : Env :=
  { getPageCount := .ok 2
    getPageAsDataUrl := fun _ => .ok "preview"
    getPageAsImage := fun i => if i = 1 then .error () else .ok "image"
    geminiResponse := fun _ => .ok (some "hello")
    apiKey := some "key" }

/-- A document whose page-count query fails. -/
def envErr : Env :=
  { getPageCount := .error ()
    getPageAsDataUrl := fun _ => .ok "preview"
    getPageAsImage := fun _ => .ok "image"
    geminiResponse := fun _ => .ok (some "hello")
    apiKey := some "key" }

/-- A 1-page document whose extraction backend succeeds but returns a
response with an empty text. -/
def envEmpty : Env :=
  { getPageCount := .ok 1
    getPageAsDataUrl := fun _ => .ok "preview"
    getPageAsImage := fun _ => .ok "image"
    geminiResponse := fun _ => .ok (some "")
    apiKey := some "key" }

/-- A JSON parser defined on exactly the inputs exercised below, agreeing
with the host runtime's `JSON.parse` there: the two-character object
literal parses to the empty object, anything else here is invalid JSON. -/
def parseEmptyObject : String → Except Unit Json :=
  fun s => if s = "\x7b\x7d" then .ok (.obj []) else .error ()

/-- Evaluation call whose backend succeeds but whose response carries no
text. -/
def evalEnvEmpty : EvalEnv :=
  { generate := .ok none, parse := parseEmptyObject }

/-- Evaluation call whose backend succeeds with a response text that is not
valid JSON. -/
def evalEnvParseFail : EvalEnv :=
  { generate := .ok (some "x"), parse := parseEmptyObject }

/-! ### Record-lookup lemmas -/

/-- `find?` only depends on the pointwise behaviour of the predicate. -/
theorem find?_ext {α : Type} (f g : α → Bool) (h : ∀ a, f a = g a) :
    ∀ l : List α, l.find? f = l.find? g := by
  intro l
  induction l with
  | nil => rfl
  | cons a l ih => simp [List.find?_cons, h a, ih]

/-- Pages are keyed by `pageNumber`: a conditional per-page update that
preserves `pageNumber` commutes with looking a page up. -/
theorem recordOfList_pageMap (g : PageExtraction → PageExtraction)
    (hg : ∀ r, (g r).pageNumber = r.pageNumber) (i p : Nat)
    (rs : List PageExtraction) :
    recordOfList (rs.map (fun r => if r.pageNumber = i then g r else r)) p
      = if p = i then (recordOfList rs p).map g else recordOfList rs p := by
  unfold recordOfList
  rw [List.find?_map]
  rw [find?_ext _ (fun r => r.pageNumber == p) (by
    intro r
    simp only [Function.comp]
    split
    · rw [hg]
    · rfl)]
  cases hf : rs.find? (fun r => r.pageNumber == p) with
  | none => simp
  | some r =>
    have hp : r.pageNumber = p := by
      have := List.find?_some hf
      simpa using this
    by_cases hpi : p = i
    · subst hpi
      simp [hp]
    · have : ¬ r.pageNumber = i := by rw [hp]; exact hpi
      simp [this, hpi]

/-- Looking up page `p` after the preview update for page `i`. -/
theorem recordOf_previewUpdate (i : Nat) (img : String) (p : Nat)
    (s : ProcessingState) :
    recordOf (previewUpdate i img s) p
      = if p = i
        then (recordOf s p).map (fun r =>
          { r with status := .processing, imageUrl := some img })
        else recordOf s p := by
  unfold recordOf previewUpdate
  exact recordOfList_pageMap
    (fun r => { r with status := .processing, imageUrl := some img })
    (fun _ => rfl) i p s.results

/-- Looking up page `p` after the success update for page `i`. -/
theorem recordOf_successUpdate (i : Nat) (text : String) (p : Nat)
    (s : ProcessingState) :
    recordOf (successUpdate i text s) p
      = if p = i
        then (recordOf s p).map (fun r =>
          { r with content := text, status := .completed })
        else recordOf s p := by
  unfold recordOf successUpdate
  exact recordOfList_pageMap
    (fun r => { r with content := text, status := .completed })
    (fun _ => rfl) i p s.results

/-- Looking up page `p` after the per-page failure update for page `i`. -/
theorem recordOf_failUpdate (i p : Nat) (s : ProcessingState) :
    recordOf (failUpdate i s) p
      = if p = i
        then (recordOf s p).map (fun r =>
          { r with
            content := "Failed to extract content."
            status := .error })
        else recordOf s p := by
  unfold recordOf failUpdate
  exact recordOfList_pageMap
    (fun r =>
      { r with
        content := "Failed to extract content."
        status := .error })
    (fun _ => rfl) i p s.results

/-- `completeUpdate` does not touch the page records. -/
theorem recordOf_completeUpdate (p : Nat) (s : ProcessingState) :
    recordOf (completeUpdate s) p = recordOf s p := rfl

/-- `fatalUpdate` does not touch the page records. -/
theorem recordOf_fatalUpdate (p : Nat) (s : ProcessingState) :
    recordOf (fatalUpdate s) p = recordOf s p := rfl

/-- The freshly allocated record list holds exactly the pages `1..count`,
all pending with empty content and no preview. -/
theorem recordOfList_mkPendingPages (count p : Nat) :
    recordOfList (mkPendingPages count) p
      = if 1 ≤ p ∧ p ≤ count
        then some
          { pageNumber := p
            content := ""
            status := .pending
            imageUrl := none }
        else none := by
  induction count with
  | zero =>
    rw [mkPendingPages]
    simp only [List.range_zero, List.map_nil]
    rw [recordOfList, List.find?_nil, if_neg (by omega)]
  | succ n ih =>
    unfold mkPendingPages at ih ⊢
    rw [List.range_succ, List.map_append, recordOfList, List.find?_append]
    rw [recordOfList] at ih
    rw [ih]
    by_cases h1 : 1 ≤ p ∧ p ≤ n
    · have h2 : 1 ≤ p ∧ p ≤ n + 1 := by omega
      simp [h1, h2]
    · by_cases h3 : p = n + 1
      · subst h3
        have h4 : 1 ≤ n + 1 ∧ n + 1 ≤ n + 1 := by omega
        simp [h1, h4, recordOfList]
      · have h5 : ¬ (1 ≤ p ∧ p ≤ n + 1) := by omega
        have h6 : (n + 1 == p) = false := by
          simp only [beq_eq_false_iff_ne, ne_eq]
          omega
        simp [h1, h5, recordOfList, List.find?, h6]

/-- The page numbers of the fresh allocation are `1..count` in order. -/
theorem map_pageNumber_mkPendingPages (count : Nat) :
    (mkPendingPages count).map (fun r => r.pageNumber)
      = List.range' 1 count := by
  unfold mkPendingPages
  rw [List.map_map, List.range'_eq_map_range]
  exact List.map_congr_left (fun a _ => Nat.add_comm a 1)

/-- Every record of the fresh allocation is pending with empty content. -/
theorem mem_mkPendingPages (count : Nat) (r : PageExtraction)
    (h : r ∈ mkPendingPages count) :
    r.status = .pending ∧ r.content = "" := by
  unfold mkPendingPages at h
  obtain ⟨i, _, rfl⟩ := List.mem_map.1 h
  exact ⟨rfl, rfl⟩

/-- A conditional per-page update preserving `pageNumber` preserves the
ordered list of page numbers. -/
theorem map_pageNumber_pageMap (g : PageExtraction → PageExtraction)
    (hg : ∀ r, (g r).pageNumber = r.pageNumber) (i : Nat)
    (rs : List PageExtraction) :
    (rs.map (fun r => if r.pageNumber = i then g r else r)).map
        (fun r => r.pageNumber)
      = rs.map (fun r => r.pageNumber) := by
  rw [List.map_map]
  refine List.map_congr_left (fun r _ => ?_)
  simp only [Function.comp]
  split
  · exact hg r
  · rfl

/-! ### Loop trace lemmas -/

/-- Every state published by the loop keeps the ordered page-number list and
the page count of the state it started from: the loop only rewrites fields
inside existing records. -/
theorem loop_trace_shape (env : Env) :
    ∀ rem i s, ∀ s' ∈ (loopAux env i rem s).1,
      s'.results.map (fun r => r.pageNumber)
          = s.results.map (fun r => r.pageNumber)
        ∧ s'.totalPages = s.totalPages := by
  intro rem
  induction rem with
  | zero =>
    intro i s s' hmem
    simp only [loopAux, List.mem_singleton] at hmem
    subst hmem
    exact ⟨rfl, rfl⟩
  | succ rem ih =>
    intro i s s' hmem
    rw [loopAux] at hmem
    cases hprev : env.getPageAsDataUrl i with
    | error e =>
      rw [hprev] at hmem
      simp only [List.mem_singleton] at hmem
      subst hmem
      exact ⟨rfl, rfl⟩
    | ok img =>
      rw [hprev] at hmem
      have hs1 : (previewUpdate i img s).results.map (fun r => r.pageNumber)
          = s.results.map (fun r => r.pageNumber) :=
        map_pageNumber_pageMap
          (fun r => { r with status := .processing, imageUrl := some img })
          (fun _ => rfl) i s.results
      cases hex : pageExtract env i with
      | ok text =>
        rw [hex] at hmem
        simp only [List.mem_cons] at hmem
        have hs2 : (successUpdate i text (previewUpdate i img s)).results.map
              (fun r => r.pageNumber)
            = s.results.map (fun r => r.pageNumber) :=
          (map_pageNumber_pageMap
            (fun r => { r with content := text, status := .completed })
            (fun _ => rfl) i (previewUpdate i img s).results).trans hs1
        rcases hmem with rfl | rfl | hmem
        · exact ⟨hs1, rfl⟩
        · exact ⟨hs2, rfl⟩
        · obtain ⟨h1, h2⟩ := ih (i + 1) _ s' hmem
          exact ⟨h1.trans hs2, h2⟩
      | error e =>
        rw [hex] at hmem
        simp only [List.mem_cons] at hmem
        have hs2 : (failUpdate i (previewUpdate i img s)).results.map
              (fun r => r.pageNumber)
            = s.results.map (fun r => r.pageNumber) :=
          (map_pageNumber_pageMap
            (fun r =>
              { r with
                content := "Failed to extract content."
                status := .error })
            (fun _ => rfl) i (previewUpdate i img s).results).trans hs1
        rcases hmem with rfl | rfl | hmem
        · exact ⟨hs1, rfl⟩
        · exact ⟨hs2, rfl⟩
        · obtain ⟨h1, h2⟩ := ih (i + 1) _ s' hmem
          exact ⟨h1.trans hs2, h2⟩

/-- The final state of the loop is one of its published states. -/
theorem loop_final_mem (env : Env) :
    ∀ rem i s, (loopAux env i rem s).2 ∈ (loopAux env i rem s).1 := by
  intro rem
  induction rem with
  | zero =>
    intro i s
    simp [loopAux]
  | succ rem ih =>
    intro i s
    rw [loopAux]
    cases hprev : env.getPageAsDataUrl i with
    | error e => simp
    | ok img =>
      cases hex : pageExtract env i with
      | ok text =>
        simp only [List.mem_cons]
        exact Or.inr (Or.inr (ih (i + 1) _))
      | error e =>
        simp only [List.mem_cons]
        exact Or.inr (Or.inr (ih (i + 1) _))

/-- Pages below the loop's starting index are never touched again: their
record in the final state is their record at loop entry. -/
theorem loop_final_frame (env : Env) :
    ∀ rem i s p, p < i →
      recordOf (loopAux env i rem s).2 p = recordOf s p := by
  intro rem
  induction rem with
  | zero =>
    intro i s p _
    simp only [loopAux]
    exact recordOf_completeUpdate p s
  | succ rem ih =>
    intro i s p hpi
    rw [loopAux]
    cases hprev : env.getPageAsDataUrl i with
    | error e => exact recordOf_fatalUpdate p s
    | ok img =>
      have hpne : ¬ p = i := by omega
      cases hex : pageExtract env i with
      | ok text =>
        simp only
        rw [ih (i + 1) _ p (by omega), recordOf_successUpdate,
          recordOf_previewUpdate, if_neg hpne, if_neg hpne]
      | error e =>
        simp only
        rw [ih (i + 1) _ p (by omega), recordOf_failUpdate,
          recordOf_previewUpdate, if_neg hpne, if_neg hpne]

/-- The final state of the loop is the last published state. -/
theorem loop_last (env : Env) :
    ∀ rem i s, (loopAux env i rem s).1.getLast?
      = some (loopAux env i rem s).2 := by
  intro rem
  induction rem with
  | zero =>
    intro i s
    simp [loopAux]
  | succ rem ih =>
    intro i s
    rw [loopAux]
    cases hprev : env.getPageAsDataUrl i with
    | error e => simp
    | ok img =>
      cases hex : pageExtract env i with
      | ok text =>
        simp only
        have hne := ih (i + 1) (successUpdate i text (previewUpdate i img s))
        cases hl : (loopAux env (i + 1) rem
            (successUpdate i text (previewUpdate i img s))).1 with
        | nil => rw [hl] at hne; simp at hne
        | cons a l =>
          rw [hl] at hne
          rw [List.getLast?_cons_cons, List.getLast?_cons_cons, hne]
      | error e =>
        simp only
        have hne := ih (i + 1) (failUpdate i (previewUpdate i img s))
        cases hl : (loopAux env (i + 1) rem
            (failUpdate i (previewUpdate i img s))).1 with
        | nil => rw [hl] at hne; simp at hne
        | cons a l =>
          rw [hl] at hne
          rw [List.getLast?_cons_cons, List.getLast?_cons_cons, hne]

/-- The published states of `processFile` are exactly the sequential
application of its `setState` updater functions. -/
theorem statesOf_loopUpdaters (env : Env) :
    ∀ rem i s, statesOf (loopUpdaters env i rem) s
      = (loopAux env i rem s).1 := by
  intro rem
  induction rem with
  | zero =>
    intro i s
    simp [loopAux, loopUpdaters, statesOf]
  | succ rem ih =>
    intro i s
    rw [loopAux, loopUpdaters]
    cases hprev : env.getPageAsDataUrl i with
    | error e => simp [statesOf]
    | ok img =>
      cases hex : pageExtract env i with
      | ok text =>
        simp only [statesOf]
        rw [ih]
      | error e =>
        simp only [statesOf]
        rw [ih]

/-- Coherence of the two views of a run: interpreting the updater list
reproduces the published trace of `processFile`. -/
theorem statesOf_runUpdaters (env : Env) (s0 : ProcessingState) :
    statesOf (runUpdaters env) s0 = (processFile env s0).1 := by
  rw [runUpdaters, processFile]
  cases hc : env.getPageCount with
  | error e => simp [statesOf]
  | ok count =>
    simp only [statesOf]
    rw [statesOf_loopUpdaters]

/-! ### Per-page status evolution -/

theorem pendingFrom_mono {i j : Nat} {s : ProcessingState} (hij : i ≤ j)
    (h : PendingFrom i s) : PendingFrom j s :=
  fun r hr hjr => h r hr (le_trans hij hjr)

/-- A per-page update at page `i` preserves `PendingFromList j` for any
`j > i`. -/
theorem pendingFromList_pageMap {i j : Nat} (hij : i < j)
    (g : PageExtraction → PageExtraction)
    (hg : ∀ r, (g r).pageNumber = r.pageNumber) (rs : List PageExtraction)
    (h : PendingFromList j rs) :
    PendingFromList j
      (rs.map (fun r => if r.pageNumber = i then g r else r)) := by
  intro r' hmem hge
  obtain ⟨r, hr, heq⟩ := List.mem_map.1 hmem
  by_cases hri : r.pageNumber = i
  · rw [if_pos hri] at heq
    subst heq
    rw [hg, hri] at hge
    exact absurd hge (by omega)
  · rw [if_neg hri] at heq
    subst heq
    exact h r hr hge

theorem optRecOk_refl (o : Option PageExtraction) : optRecOk o o := by
  cases o with
  | none => trivial
  | some r => exact Or.inl rfl

theorem stepOk_of_records_eq {s s' : ProcessingState}
    (h : ∀ p, recordOf s' p = recordOf s p) : StepOk s s' := by
  intro p
  rw [h p]
  exact optRecOk_refl _

/-- The preview update is a legal step when page `i` is still pending. -/
theorem stepOk_previewUpdate {i : Nat} {s : ProcessingState} (img : String)
    (h : PendingFrom i s) : StepOk s (previewUpdate i img s) := by
  intro p
  rw [recordOf_previewUpdate]
  by_cases hpi : p = i
  · rw [if_pos hpi]
    cases hrec : recordOf s p with
    | none => trivial
    | some r =>
      rw [Option.map_some']
      have hrec' : s.results.find? (fun q => q.pageNumber == p) = some r :=
        hrec
      have hmem := List.mem_of_find?_eq_some hrec'
      have hpn := List.find?_some
        (p := fun q : PageExtraction => q.pageNumber == p) hrec'
      have hpend : r.status = .pending := by
        refine h r hmem ?_
        have : r.pageNumber = p := by simpa using hpn
        omega
      exact Or.inr (Or.inl ⟨hpend, rfl⟩)
  · rw [if_neg hpi]
    exact optRecOk_refl _

/-- The success update is a legal step when page `i` is processing. -/
theorem stepOk_successUpdate {i : Nat} (text : String)
    {s1 : ProcessingState}
    (h : ∀ r, recordOf s1 i = some r → r.status = .processing) :
    StepOk s1 (successUpdate i text s1) := by
  intro p
  rw [recordOf_successUpdate]
  by_cases hpi : p = i
  · rw [if_pos hpi]
    subst hpi
    cases hrec : recordOf s1 p with
    | none => trivial
    | some r =>
      rw [Option.map_some']
      exact Or.inr (Or.inr ⟨h r hrec, Or.inl rfl⟩)
  · rw [if_neg hpi]
    exact optRecOk_refl _

/-- The per-page failure update is a legal step when page `i` is
processing. -/
theorem stepOk_failUpdate {i : Nat} {s1 : ProcessingState}
    (h : ∀ r, recordOf s1 i = some r → r.status = .processing) :
    StepOk s1 (failUpdate i s1) := by
  intro p
  rw [recordOf_failUpdate]
  by_cases hpi : p = i
  · rw [if_pos hpi]
    subst hpi
    cases hrec : recordOf s1 p with
    | none => trivial
    | some r =>
      rw [Option.map_some']
      exact Or.inr (Or.inr ⟨h r hrec, Or.inr rfl⟩)
  · rw [if_neg hpi]
    exact optRecOk_refl _

/-- After the preview update, page `i` (if allocated) is processing. -/
theorem processing_after_preview {i : Nat} {s : ProcessingState}
    (img : String) :
    ∀ r, recordOf (previewUpdate i img s) i = some r →
      r.status = .processing := by
  intro r hr
  rw [recordOf_previewUpdate, if_pos rfl] at hr
  cases hrec : recordOf s i with
  | none => rw [hrec] at hr; simp at hr
  | some r0 =>
    rw [hrec, Option.map_some'] at hr
    injection hr with hr
    rw [← hr]

/-- Along the whole loop, consecutive published states are related by
`StepOk` in every page. -/
theorem loop_chain (env : Env) :
    ∀ rem i s, PendingFrom i s →
      List.Chain' StepOk (s :: (loopAux env i rem s).1) := by
  intro rem
  induction rem with
  | zero =>
    intro i s _
    simp only [loopAux]
    exact List.chain'_cons.2
      ⟨stepOk_of_records_eq (fun _ => rfl), List.chain'_singleton _⟩
  | succ rem ih =>
    intro i s h
    rw [loopAux]
    cases hprev : env.getPageAsDataUrl i with
    | error e =>
      exact List.chain'_cons.2
        ⟨stepOk_of_records_eq (fun _ => rfl), List.chain'_singleton _⟩
    | ok img =>
      have h1 : PendingFrom (i + 1) (previewUpdate i img s) :=
        pendingFromList_pageMap (by omega)
          (fun r => { r with status := .processing, imageUrl := some img })
          (fun _ => rfl) s.results (pendingFrom_mono (by omega) h)
      cases hex : pageExtract env i with
      | ok text =>
        simp only
        refine List.chain'_cons.2 ⟨stepOk_previewUpdate img h, ?_⟩
        refine List.chain'_cons.2
          ⟨stepOk_successUpdate text (processing_after_preview img), ?_⟩
        refine ih (i + 1) _ ?_
        exact pendingFromList_pageMap (by omega)
          (fun r => { r with content := text, status := .completed })
          (fun _ => rfl) (previewUpdate i img s).results h1
      | error e =>
        simp only
        refine List.chain'_cons.2 ⟨stepOk_previewUpdate img h, ?_⟩
        refine List.chain'_cons.2
          ⟨stepOk_failUpdate (processing_after_preview img), ?_⟩
        refine ih (i + 1) _ ?_
        exact pendingFromList_pageMap (by omega)
          (fun r =>
            { r with
              content := "Failed to extract content."
              status := .error })
          (fun _ => rfl) (previewUpdate i img s).results h1

/-- `currentPage` never decreases along the loop's published states. -/
theorem loop_cp_chain (env : Env) :
    ∀ rem i s, s.currentPage ≤ i →
      List.Chain' (fun a b => a.currentPage ≤ b.currentPage)
        (s :: (loopAux env i rem s).1) := by
  intro rem
  induction rem with
  | zero =>
    intro i s _
    simp only [loopAux]
    exact List.chain'_cons.2 ⟨le_refl _, List.chain'_singleton _⟩
  | succ rem ih =>
    intro i s hcp
    rw [loopAux]
    cases hprev : env.getPageAsDataUrl i with
    | error e =>
      exact List.chain'_cons.2 ⟨le_refl _, List.chain'_singleton _⟩
    | ok img =>
      cases hex : pageExtract env i with
      | ok text =>
        simp only
        refine List.chain'_cons.2 ⟨hcp, ?_⟩
        refine List.chain'_cons.2 ⟨le_refl _, ?_⟩
        exact ih (i + 1) _ (by simp [successUpdate, previewUpdate])
      | error e =>
        simp only
        refine List.chain'_cons.2 ⟨hcp, ?_⟩
        refine List.chain'_cons.2 ⟨le_refl _, ?_⟩
        exact ih (i + 1) _ (by simp [failUpdate, previewUpdate])

/-! ### Final-state lemmas for the loop -/

/-- If every preview render of the loop's page range succeeds, the loop runs
to completion and the final published state has status `completed`. -/
theorem loop_final_completed (env : Env) :
    ∀ rem i s,
      (∀ k, i ≤ k → k < i + rem →
        ∃ img, env.getPageAsDataUrl k = .ok img) →
      (loopAux env i rem s).2.status = .completed := by
  intro rem
  induction rem with
  | zero =>
    intro i s _
    rfl
  | succ rem ih =>
    intro i s hprev
    obtain ⟨img, himg⟩ := hprev i (le_refl i) (by omega)
    rw [loopAux, himg]
    cases hex : pageExtract env i with
    | ok text =>
      simp only
      exact ih (i + 1) _ (fun k hk1 hk2 => hprev k (by omega) (by omega))
    | error e =>
      simp only
      exact ih (i + 1) _ (fun k hk1 hk2 => hprev k (by omega) (by omega))

/-- If every preview up to page `j` succeeds, the loop reaches page `j` and
processes it: the final record of page `j` is its entry record transformed
by `processedRec` (regardless of how later pages fare). -/
theorem loop_final_record (env : Env) :
    ∀ rem i s j, i ≤ j → j < i + rem →
      (∀ k, i ≤ k → k ≤ j → ∃ img, env.getPageAsDataUrl k = .ok img) →
      ∃ img, env.getPageAsDataUrl j = .ok img ∧
        recordOf (loopAux env i rem s).2 j
          = (recordOf s j).map (processedRec env j img) := by
  intro rem
  induction rem with
  | zero =>
    intro i s j h1 h2 _
    exact absurd h2 (by omega)
  | succ rem ih =>
    intro i s j hij hjr hprev
    by_cases hji : j = i
    · subst hji
      obtain ⟨img, himg⟩ := hprev j (le_refl j) (le_refl j)
      refine ⟨img, himg, ?_⟩
      rw [loopAux, himg]
      cases hex : pageExtract env j with
      | ok text =>
        simp only
        rw [loop_final_frame env rem (j + 1) _ j (by omega)]
        rw [recordOf_successUpdate, if_pos rfl, recordOf_previewUpdate,
          if_pos rfl, Option.map_map]
        cases recordOf s j with
        | none => rfl
        | some r =>
          simp only [Option.map_some', Function.comp]
          unfold processedRec
          rw [hex]
      | error e =>
        simp only
        rw [loop_final_frame env rem (j + 1) _ j (by omega)]
        rw [recordOf_failUpdate, if_pos rfl, recordOf_previewUpdate,
          if_pos rfl, Option.map_map]
        cases recordOf s j with
        | none => rfl
        | some r =>
          simp only [Option.map_some', Function.comp]
          unfold processedRec
          rw [hex]
    · have hij' : i < j := by omega
      obtain ⟨img0, himg0⟩ := hprev i (le_refl i) (by omega)
      rw [loopAux, himg0]
      cases hex : pageExtract env i with
      | ok text =>
        simp only
        obtain ⟨img, himg, hrec⟩ := ih (i + 1)
          (successUpdate i text (previewUpdate i img0 s)) j (by omega)
          (by omega) (fun k hk1 hk2 => hprev k (by omega) hk2)
        refine ⟨img, himg, ?_⟩
        rw [hrec, recordOf_successUpdate, if_neg hji,
          recordOf_previewUpdate, if_neg hji]
      | error e =>
        simp only
        obtain ⟨img, himg, hrec⟩ := ih (i + 1)
          (failUpdate i (previewUpdate i img0 s)) j (by omega)
          (by omega) (fun k hk1 hk2 => hprev k (by omega) hk2)
        refine ⟨img, himg, ?_⟩
        rw [hrec, recordOf_failUpdate, if_neg hji,
          recordOf_previewUpdate, if_neg hji]

/-- If the previews up to page `j` succeed but page `j`'s preview render
fails, the run aborts there: the final status is `error` and no page from
`j` on was ever touched by the loop. -/
theorem loop_final_abort (env : Env) :
    ∀ rem i s j e, i ≤ j → j < i + rem →
      (∀ k, i ≤ k → k < j → ∃ img, env.getPageAsDataUrl k = .ok img) →
      env.getPageAsDataUrl j = .error e →
      (loopAux env i rem s).2.status = .error ∧
        ∀ p, j ≤ p → recordOf (loopAux env i rem s).2 p = recordOf s p := by
  intro rem
  induction rem with
  | zero =>
    intro i s j e h1 h2 _ _
    exact absurd h2 (by omega)
  | succ rem ih =>
    intro i s j e hij hjr hprev herr
    by_cases hji : j = i
    · subst hji
      rw [loopAux, herr]
      exact ⟨rfl, fun p hp => rfl⟩
    · have hij' : i < j := by omega
      obtain ⟨img0, himg0⟩ := hprev i (le_refl i) (by omega)
      rw [loopAux, himg0]
      cases hex : pageExtract env i with
      | ok text =>
        simp only
        obtain ⟨hst, hrec⟩ := ih (i + 1)
          (successUpdate i text (previewUpdate i img0 s)) j e (by omega)
          (by omega) (fun k hk1 hk2 => hprev k (by omega) hk2) herr
        refine ⟨hst, fun p hp => ?_⟩
        rw [hrec p hp, recordOf_successUpdate, if_neg (by omega),
          recordOf_previewUpdate, if_neg (by omega)]
      | error e2 =>
        simp only
        obtain ⟨hst, hrec⟩ := ih (i + 1)
          (failUpdate i (previewUpdate i img0 s)) j e (by omega)
          (by omega) (fun k hk1 hk2 => hprev k (by omega) hk2) herr
        refine ⟨hst, fun p hp => ?_⟩
        rw [hrec p hp, recordOf_failUpdate, if_neg (by omega),
          recordOf_previewUpdate, if_neg (by omega)]

/-! ### Combined-transcript lemmas -/

theorem filter_map_eq_filterMap (rs : List PageExtraction) :
    (rs.filter (fun r => r.status == .completed)).map (fun r => r.content)
      = rs.filterMap (fun r =>
          if r.status == .completed then some r.content else none) := by
  induction rs with
  | nil => rfl
  | cons r rs ih =>
    cases hst : r.status <;>
      simp [List.filter_cons, List.filterMap_cons, hst, ih]

/-- When the page numbers of a record list are exactly `a, a+1, ...` in
order, walking that number range and looking each page up visits the
records once, in list order. -/
theorem filterMap_lookup (h : PageExtraction → Option String) :
    ∀ (rs : List PageExtraction) (a n : Nat),
      rs.map (fun r => r.pageNumber) = List.range' a n →
      (List.range' a n).filterMap (fun p =>
        match recordOfList rs p with
        | some r => h r
        | none => none) = rs.filterMap h := by
  intro rs
  induction rs with
  | nil =>
    intro a n hmap
    have hn : n = 0 := by
      have := congrArg List.length hmap
      simpa using this.symm
    subst hn
    rfl
  | cons r rs ih =>
    intro a n hmap
    cases n with
    | zero => simp at hmap
    | succ m =>
      rw [List.range'_succ] at hmap
      simp only [List.map_cons, List.cons.injEq] at hmap
      obtain ⟨hra, hmap'⟩ := hmap
      rw [List.range'_succ, List.filterMap_cons]
      have hhead : recordOfList (r :: rs) a = some r := by
        unfold recordOfList
        rw [List.find?_cons]
        have hb : (r.pageNumber == a) = true := by simp [hra]
        rw [hb]
      have htail : (List.range' (a + 1) m).filterMap (fun p =>
            match recordOfList (r :: rs) p with
            | some q => h q
            | none => none)
          = (List.range' (a + 1) m).filterMap (fun p =>
            match recordOfList rs p with
            | some q => h q
            | none => none) := by
        refine List.filterMap_congr (fun p hp => ?_)
        have hpge : a + 1 ≤ p := (List.mem_range'_1.1 hp).1
        have hskip : recordOfList (r :: rs) p = recordOfList rs p := by
          unfold recordOfList
          rw [List.find?_cons]
          have hb : (r.pageNumber == p) = false := by
            simp only [beq_eq_false_iff_ne, ne_eq, hra]
            omega
          rw [hb]
        rw [hskip]
      rw [hhead, htail, ih (a + 1) m hmap', List.filterMap_cons]

/-- Every state published by a run started from the initial state lists its
pages as `1..totalPages`, in order. -/
theorem trace_pageNumbers (env : Env) :
    ∀ s ∈ (processFile env initialState).1,
      s.results.map (fun r => r.pageNumber)
        = List.range' 1 s.totalPages := by
  intro s hs
  rw [processFile] at hs
  cases hc : env.getPageCount with
  | error e =>
    rw [hc] at hs
    simp only [List.mem_cons, List.not_mem_nil, or_false] at hs
    rcases hs with rfl | rfl <;> rfl
  | ok count =>
    rw [hc] at hs
    simp only [List.mem_cons] at hs
    rcases hs with rfl | rfl | hs
    · rfl
    · exact map_pageNumber_mkPendingPages count
    · obtain ⟨h1, h2⟩ := loop_trace_shape env count 1 _ s hs
      rw [h1, h2]
      exact map_pageNumber_mkPendingPages count

/-- For a state whose pages are listed in page-number order `1..totalPages`
(as in every published state of a run), the source's `combinedContent`
agrees with the specification's page-number-ordered transcript. -/
theorem combined_eq_spec_of_shape {s : ProcessingState}
    (hshape : s.results.map (fun r => r.pageNumber)
      = List.range' 1 s.totalPages) :
    combinedContent s = specCombined s := by
  unfold combinedContent specCombined recordOf
  rw [filter_map_eq_filterMap]
  rw [filterMap_lookup
    (fun r => if r.status == .completed then some r.content else none)
    s.results 1 s.totalPages hshape]

/-! ### Run-level helper lemmas -/

theorem processFile_ok (env : Env) (count : Nat) (s0 : ProcessingState)
    (hc : env.getPageCount = .ok count) :
    processFile env s0
      = (initUpdate s0 :: allocUpdate count (initUpdate s0)
            :: (loopAux env 1 count (allocUpdate count (initUpdate s0))).1,
          (loopAux env 1 count (allocUpdate count (initUpdate s0))).2) := by
  rw [processFile, hc]

theorem processFile_err (env : Env) (e : Unit) (s0 : ProcessingState)
    (hc : env.getPageCount = .error e) :
    processFile env s0
      = ([initUpdate s0, fatalUpdate (initUpdate s0)],
          fatalUpdate (initUpdate s0)) := by
  rw [processFile, hc]

theorem recordOf_alloc (count i : Nat) (h1 : 1 ≤ i) (h2 : i ≤ count)
    (s : ProcessingState) :
    recordOf (allocUpdate count s) i
      = some
          { pageNumber := i
            content := ""
            status := .pending
            imageUrl := none } := by
  have h := recordOfList_mkPendingPages count i
  rw [if_pos ⟨h1, h2⟩] at h
  exact h

/-! ### Claims -/

/-- C6: For every page `p` and every run from the initial state, the page's
record across all published states evolves only along
`pending → processing → {completed, error}`: it never skips `processing`,
and once terminal it never changes again. -/
theorem c6_page_status_transitions (env : Env) (p : Nat) :
    List.Chain' (fun s s' => optRecOk (recordOf s p) (recordOf s' p))
      (initialState :: (processFile env initialState).1) := by
  have hchain : List.Chain' StepOk
      (initialState :: (processFile env initialState).1) := by
    rw [processFile]
    cases hc : env.getPageCount with
    | error e =>
      refine List.chain'_cons.2 ⟨stepOk_of_records_eq (fun _ => rfl), ?_⟩
      exact List.chain'_cons.2
        ⟨stepOk_of_records_eq (fun _ => rfl), List.chain'_singleton _⟩
    | ok count =>
      refine List.chain'_cons.2 ⟨stepOk_of_records_eq (fun _ => rfl), ?_⟩
      refine List.chain'_cons.2 ⟨fun q => trivial, ?_⟩
      exact loop_chain env count 1 _
        (fun r hr _ => (mem_mkPendingPages count r hr).1)
  exact List.Chain'.imp (fun a b hab => hab p) hchain

/-- C9: Within a run from the initial state, `currentPage` is monotonically
non-decreasing across every published state. -/
theorem c9_currentPage_monotone (env : Env) :
    List.Chain' (fun a b => a.currentPage ≤ b.currentPage)
      (initialState :: (processFile env initialState).1) := by
  rw [processFile]
  cases hc : env.getPageCount with
  | error e =>
    refine List.chain'_cons.2 ⟨le_refl _, ?_⟩
    exact List.chain'_cons.2 ⟨le_refl _, List.chain'_singleton _⟩
  | ok count =>
    refine List.chain'_cons.2 ⟨le_refl _, ?_⟩
    refine List.chain'_cons.2 ⟨Nat.zero_le 1, ?_⟩
    exact loop_cp_chain env count 1 _ (le_refl 1)

/-- C7: When the page count resolves to `count`, the very state transition
that records `totalPages = count` also allocates all `count` page records,
pending with empty content, before any loop state is published; and every
published state of the run satisfies `results.length = totalPages`. -/
theorem c7_full_allocation (env : Env) (count : Nat)
    (hc : env.getPageCount = .ok count) :
    (processFile env initialState).1
        = initUpdate initialState
            :: allocUpdate count (initUpdate initialState)
            :: (loopAux env 1 count
                (allocUpdate count (initUpdate initialState))).1
      ∧ (allocUpdate count (initUpdate initialState)).totalPages = count
      ∧ (allocUpdate count (initUpdate initialState)).results.length = count
      ∧ (∀ r ∈ (allocUpdate count (initUpdate initialState)).results,
          r.status = .pending ∧ r.content = "")
      ∧ ∀ s ∈ (processFile env initialState).1,
          s.results.length = s.totalPages := by
  refine ⟨by rw [processFile_ok env count initialState hc], rfl, ?_, ?_, ?_⟩
  · simp [allocUpdate, mkPendingPages]
  · intro r hr
    exact mem_mkPendingPages count r hr
  · intro s hs
    have hmap := trace_pageNumbers env s hs
    have hlen := congrArg List.length hmap
    simpa using hlen

/-- C7 witness at a concrete 2-page environment. -/
theorem c7_full_allocation_witness :
    (processFile envA initialState).1
        = initUpdate initialState
            :: allocUpdate 2 (initUpdate initialState)
            :: (loopAux envA 1 2 (allocUpdate 2 (initUpdate initialState))).1
      ∧ (allocUpdate 2 (initUpdate initialState)).totalPages = 2
      ∧ (allocUpdate 2 (initUpdate initialState)).results.length = 2
      ∧ (processFile envA initialState).2.results.length
          = (processFile envA initialState).2.totalPages := by
  have h := c7_full_allocation envA 2 rfl
  refine ⟨h.1, h.2.1, h.2.2.1, h.2.2.2.2 _ ?_⟩
  rw [processFile_ok envA 2 initialState rfl]
  exact List.mem_cons_of_mem _
    (List.mem_cons_of_mem _ (loop_final_mem envA 2 1 _))

/-- C8: When the page-count query fails, the run ends with status `error`,
an empty page list, the user-facing error message set, and no state of the
run ever contains a page record (so no page ever reaches `processing`);
the trace shows no pipeline step after the failure. -/
theorem c8_pagecount_failure (env : Env) (e : Unit)
    (hc : env.getPageCount = .error e) :
    (processFile env initialState).2.status = .error
      ∧ (processFile env initialState).2.results = []
      ∧ (processFile env initialState).2.errorMessage
          = some "Failed to process file. Make sure it is a valid PDF."
      ∧ (processFile env initialState).1
          = [initUpdate initialState, fatalUpdate (initUpdate initialState)]
      ∧ ∀ s ∈ (processFile env initialState).1, s.results = [] := by
  rw [processFile_err env e initialState hc]
  refine ⟨rfl, rfl, rfl, rfl, ?_⟩
  intro s hs
  simp only [List.mem_cons, List.not_mem_nil, or_false] at hs
  rcases hs with rfl | rfl <;> rfl

/-- C8 witness at a concrete environment with a failing page count. -/
theorem c8_pagecount_failure_witness :
    (processFile envErr initialState).2.status = PipeStatus.error
      ∧ (processFile envErr initialState).2.results = []
      ∧ (processFile envErr initialState).2.errorMessage
          = some "Failed to process file. Make sure it is a valid PDF."
      ∧ (processFile envErr initialState).1
          = [initUpdate initialState, fatalUpdate (initUpdate initialState)]
      ∧ ∀ s ∈ (processFile envErr initialState).1, s.results = [] :=
  c8_pagecount_failure envErr () rfl

/-- C3: As long as every preview render succeeds, a failing extraction is
local: the failing page's record gets the placeholder content and status
`error`, every page still reaches a terminal status, and the run ends with
overall status `completed` (even if every page errored). -/
theorem c3_extraction_failure_local (env : Env) (count : Nat)
    (hc : env.getPageCount = .ok count)
    (hprev : ∀ j, 1 ≤ j → j ≤ count →
      ∃ img, env.getPageAsDataUrl j = .ok img) :
    (processFile env initialState).2.status = .completed
      ∧ (∀ i, 1 ≤ i → i ≤ count →
          ∃ r, recordOf (processFile env initialState).2 i = some r
            ∧ (r.status = .completed ∨ r.status = .error))
      ∧ ∀ i, 1 ≤ i → i ≤ count → ∀ e, pageExtract env i = .error e →
          ∃ r, recordOf (processFile env initialState).2 i = some r
            ∧ r.content = "Failed to extract content."
            ∧ r.status = .error := by
  rw [processFile_ok env count initialState hc]
  refine ⟨?_, ?_, ?_⟩
  · exact loop_final_completed env count 1 _
      (fun k hk1 hk2 => hprev k hk1 (by omega))
  · intro i h1 h2
    obtain ⟨img, himg, hrec⟩ := loop_final_record env count 1 _ i h1
      (by omega) (fun k hk1 hk2 => hprev k hk1 (by omega))
    rw [hrec, recordOf_alloc count i h1 h2 _, Option.map_some']
    cases hex : pageExtract env i with
    | ok t =>
      refine ⟨_, rfl, Or.inl ?_⟩
      unfold processedRec
      rw [hex]
    | error e =>
      refine ⟨_, rfl, Or.inr ?_⟩
      unfold processedRec
      rw [hex]
  · intro i h1 h2 e hex
    obtain ⟨img, himg, hrec⟩ := loop_final_record env count 1 _ i h1
      (by omega) (fun k hk1 hk2 => hprev k hk1 (by omega))
    rw [hrec, recordOf_alloc count i h1 h2 _, Option.map_some']
    refine ⟨_, rfl, ?_, ?_⟩
    · unfold processedRec
      rw [hex]
    · unfold processedRec
      rw [hex]

/-- C3 witness: a concrete 2-page run where both extractions fail still
ends `completed`, with the placeholder recorded on page 1. -/
theorem c3_extraction_failure_local_witness :
    (processFile envFail initialState).2.status = PipeStatus.completed
      ∧ ∃ r, recordOf (processFile envFail initialState).2 1 = some r
          ∧ r.content = "Failed to extract content."
          ∧ r.status = PageStatus.error := by
  have h := c3_extraction_failure_local envFail 2 rfl
    (fun j hj1 hj2 => ⟨"preview", rfl⟩)
  exact ⟨h.1, h.2.2 1 (by omega) (by omega) () rfl⟩

/-- C4: In every published state of a run, the source's combined transcript
equals the specification's: the contents of exactly the `completed` pages,
walked in page-number order, joined by a blank-line separator (error pages
and their placeholder text contribute nothing). -/
theorem c4_combined_transcript (env : Env) (s : ProcessingState)
    (hs : s ∈ (processFile env initialState).1) :
    combinedContent s = specCombined s :=
  combined_eq_spec_of_shape (trace_pageNumbers env s hs)

/-- C4 witness at the final published state of a concrete 2-page run. -/
theorem c4_combined_transcript_witness :
    combinedContent (processFile envA initialState).2
      = specCombined (processFile envA initialState).2 :=
  c4_combined_transcript envA _ (by
    rw [processFile_ok envA 2 initialState rfl]
    exact List.mem_cons_of_mem _
      (List.mem_cons_of_mem _ (loop_final_mem envA 2 1 _)))

/-- C2 counterexample: on a concrete 2-page document whose page-1
extraction-quality render (`getPageAsImage`) fails, the run does NOT
transition to overall status `error`: it records a per-page error for
page 1, continues to page 2, and ends `completed` — refuting the claim that
a render failure at extraction quality is fatal and never a per-page
error. -/
theorem c2_extraction_quality_render_not_fatal :
    (processFile envImgFail initialState).2.status = PipeStatus.completed
      ∧ ¬ (processFile envImgFail initialState).2.status = PipeStatus.error
      ∧ recordOf (processFile envImgFail initialState).2 1
          = some
              { pageNumber := 1
                content := "Failed to extract content."
                status := PageStatus.error
                imageUrl := some "preview" }
      ∧ recordOf (processFile envImgFail initialState).2 2
          = some
              { pageNumber := 2
                content := "hello"
                status := PageStatus.completed
                imageUrl := some "preview" } := by
  exact ⟨by decide, by decide, by decide, by decide⟩

/-- C2 (amended): only a preview-quality render failure
(`getPageAsDataUrl`) is fatal to the run — the run status becomes `error`
and every page from the failing one on stays pending, untouched; a failure
of the extraction-quality render (`getPageAsImage`) is caught by the
per-page handler instead: that page is recorded as a per-page `error` with
the placeholder content exactly like an extraction failure, and the run is
not aborted. -/
theorem c2_render_failure_asymmetry (env : Env) (count i : Nat)
    (hc : env.getPageCount = .ok count) (h1 : 1 ≤ i) (h2 : i ≤ count)
    (hbefore : ∀ j, 1 ≤ j → j < i →
      ∃ img, env.getPageAsDataUrl j = .ok img) :
    (∀ e, env.getPageAsDataUrl i = .error e →
        (processFile env initialState).2.status = .error
          ∧ ∀ p, i ≤ p → p ≤ count →
              recordOf (processFile env initialState).2 p
                = some
                    { pageNumber := p
                      content := ""
                      status := PageStatus.pending
                      imageUrl := none })
      ∧ ∀ img e, env.getPageAsDataUrl i = .ok img →
          env.getPageAsImage i = .error e →
          pageExtract env i = .error ()
            ∧ ∃ r, recordOf (processFile env initialState).2 i = some r
                ∧ r.status = .error
                ∧ r.content = "Failed to extract content." := by
  constructor
  · intro e herr
    rw [processFile_ok env count initialState hc]
    obtain ⟨hst, hframe⟩ := loop_final_abort env count 1 _ i e h1
      (by omega) (fun k hk1 hk2 => hbefore k hk1 hk2) herr
    refine ⟨hst, fun p hp1 hp2 => ?_⟩
    rw [hframe p hp1, recordOf_alloc count p (by omega) hp2 _]
  · intro img e himg himgfail
    have hex : pageExtract env i = .error () := by
      unfold pageExtract
      rw [himgfail]
    refine ⟨hex, ?_⟩
    rw [processFile_ok env count initialState hc]
    obtain ⟨img2, himg2, hrec⟩ := loop_final_record env count 1 _ i h1
      (by omega) (fun k hk1 hk2 => by
        by_cases hki : k = i
        · subst hki
          exact ⟨img, himg⟩
        · exact hbefore k hk1 (by omega))
    rw [hrec, recordOf_alloc count i h1 h2 _, Option.map_some']
    refine ⟨_, rfl, ?_, ?_⟩
    · unfold processedRec
      rw [hex]
    · unfold processedRec
      rw [hex]

/-- C2 (amended) witness: applied to the concrete document whose page-1
extraction-quality render fails. -/
theorem c2_render_failure_asymmetry_witness :
    pageExtract envImgFail 1 = .error ()
      ∧ ∃ r, recordOf (processFile envImgFail initialState).2 1 = some r
          ∧ r.status = PageStatus.error
          ∧ r.content = "Failed to extract content." :=
  (c2_render_failure_asymmetry envImgFail 2 1 rfl (by omega) (by omega)
    (fun j hj1 hj2 => absurd hj1 (by omega))).2 "preview" () rfl rfl

/-- C1 counterexample: the code has no generation token, so a
state-mutating step of an abandoned run CAN apply to the state created by
`reset`.  Concretely: run the 2-page all-success document, let the first
two `setState` updaters apply, reset (which yields exactly the initial
state), then let the remaining in-flight updaters of the abandoned run
resolve — the resulting state is not the reset state: its status is
`completed` (and its `currentPage` is 2), refuting "no state-mutating step
of a prior run ever applies to the state created by reset". -/
theorem c1_stale_steps_mutate_reset_state :
    resetUpdate (allocUpdate 2 (initUpdate initialState)) = initialState
      ∧ ¬ applyAll ((runUpdaters envA).drop 2)
            (resetUpdate (allocUpdate 2 (initUpdate initialState)))
          = initialState
      ∧ (applyAll ((runUpdaters envA).drop 2)
            (resetUpdate (allocUpdate 2 (initUpdate initialState)))).status
          = PipeStatus.completed
      ∧ (applyAll ((runUpdaters envA).drop 2)
            (resetUpdate (allocUpdate 2 (initUpdate initialState)))).currentPage
          = 2 := by
  exact ⟨rfl, by decide, by decide, by decide⟩

/-- C1 (amended): `reset()` at any point yields exactly the initial state
(`idle`, no pages, `totalPages = 0`, `currentPage = 0`), and the abandoned
run's per-page record updates (extraction success or failure) are no-ops on
the reset state because its page list is empty; but the code has no
generation token, so the abandoned run's other steps do apply to the new
state: a late preview step overwrites `currentPage`, and the end-of-loop
completion step sets the status of the reset state to `completed`, an
observable effect. -/
theorem c1_reset_and_stale_updates (s : ProcessingState) (i : Nat)
    (t img : String) :
    resetUpdate s = initialState
      ∧ (s.results = [] → successUpdate i t s = s)
      ∧ (s.results = [] → failUpdate i s = s)
      ∧ (s.results = [] → previewUpdate i img s
          = { s with currentPage := i })
      ∧ (completeUpdate initialState).status = PipeStatus.completed
      ∧ ¬ completeUpdate initialState = initialState := by
  refine ⟨rfl, ?_, ?_, ?_, rfl, by decide⟩
  · intro h
    cases s with
    | mk st tp cp rs em =>
      obtain rfl : rs = [] := h
      rfl
  · intro h
    cases s with
    | mk st tp cp rs em =>
      obtain rfl : rs = [] := h
      rfl
  · intro h
    cases s with
    | mk st tp cp rs em =>
      obtain rfl : rs = [] := h
      rfl

/-- C1 (amended) witness at concrete states. -/
theorem c1_reset_and_stale_updates_witness :
    resetUpdate (completeUpdate initialState) = initialState
      ∧ successUpdate 1 "t" initialState = initialState
      ∧ failUpdate 1 initialState = initialState
      ∧ previewUpdate 1 "img" initialState
          = { initialState with currentPage := 1 } := by
  have h := c1_reset_and_stale_updates initialState 1 "t" "img"
  exact ⟨(c1_reset_and_stale_updates (completeUpdate initialState) 1 "t"
    "img").1, h.2.1 rfl, h.2.2.1 rfl, h.2.2.2.1 rfl⟩

/-- C5 counterexample: when the backend call succeeds but its response
carries no text, `processAndEvaluate` parses the fallback `"\x7b\x7d"` and
returns the empty JSON object, cast to `EvaluationReport` without any shape
validation — a value that is NOT a well-formed typed report, refuting "it
never returns anything other than a well-formed typed report or a typed
failure". -/
theorem c5_returns_malformed_report :
    processAndEvaluate evalEnvEmpty = .ok (.obj [])
      ∧ wellFormedReport (.obj []) = false := by
  exact ⟨rfl, rfl⟩

/-- C5 (amended): `processAndEvaluate` is an unvalidated pass-through:
a backend failure propagates unchanged (not wrapped); on backend success it
returns verbatim whatever JSON the response text (or `"\x7b\x7d"` when the
text is missing/empty) parses to — hence items are in the backend's
returned order, unmodified, but the result need not be a well-formed
report; only a parse failure is turned into the typed error
`"Failed to process evaluation report."`. -/
theorem c5_unvalidated_pass_through (env : EvalEnv) :
    (∀ e, env.generate = .error e → processAndEvaluate env = .error e)
      ∧ (∀ text j, env.generate = .ok text →
          env.parse (jsOr text "\x7b\x7d") = .ok j →
          processAndEvaluate env = .ok j)
      ∧ ∀ text e, env.generate = .ok text →
          env.parse (jsOr text "\x7b\x7d") = .error e →
          processAndEvaluate env
            = .error "Failed to process evaluation report." := by
  refine ⟨?_, ?_, ?_⟩
  · intro e h
    unfold processAndEvaluate
    rw [h]
  · intro text j hg hp
    unfold processAndEvaluate
    rw [hg]
    dsimp only
    rw [hp]
  · intro text e hg hp
    unfold processAndEvaluate
    rw [hg]
    dsimp only
    rw [hp]

/-- C5 (amended) witness: a backend response that is not valid JSON yields
the typed parse-failure error. -/
theorem c5_unvalidated_pass_through_witness :
    processAndEvaluate evalEnvParseFail
      = .error "Failed to process evaluation report." :=
  (c5_unvalidated_pass_through evalEnvParseFail).2.2 (some "x") () rfl rfl

/-- C10: a successful extraction never stores the empty string: when the
backend response carries no text (absent or empty), the extraction
operation returns exactly "No content extracted.", and in a run whose
previews succeed, such a page is marked `completed` with that content,
which is included in the list the combined transcript joins, like any other
completed page's content. -/
theorem c10_no_empty_content :
    (∀ apiKey resp t, extractContentFromPage apiKey resp = .ok t →
        ¬ t = "" ∧ ((resp = .ok none ∨ resp = .ok (some "")) →
          t = "No content extracted."))
      ∧ ∀ env : Env, ∀ count i, env.getPageCount = .ok count →
          (∀ j, 1 ≤ j → j ≤ count →
            ∃ img, env.getPageAsDataUrl j = .ok img) →
          1 ≤ i → i ≤ count → ∀ t, pageExtract env i = .ok t →
          ∃ r, recordOf (processFile env initialState).2 i = some r
            ∧ r.status = .completed ∧ r.content = t
            ∧ r.content ∈ ((processFile env initialState).2.results.filter
                (fun q => q.status == PageStatus.completed)).map
                  (fun q => q.content) := by
  constructor
  · intro apiKey resp t hok
    unfold extractContentFromPage at hok
    cases apiKey with
    | none => exact absurd hok (by simp)
    | some k =>
      cases resp with
      | error e => exact absurd hok (by simp)
      | ok t0 =>
        simp only [Except.ok.injEq] at hok
        subst hok
        cases t0 with
        | none => exact ⟨by decide, fun _ => rfl⟩
        | some s0 =>
          by_cases hs0 : s0 = ""
          · subst hs0
            exact ⟨by decide, fun _ => by decide⟩
          · have hj : jsOr (some s0) "No content extracted." = s0 :=
              if_neg hs0
            rw [hj]
            refine ⟨hs0, fun hor => ?_⟩
            rcases hor with h | h
            · exact absurd h (by simp)
            · have hempty : s0 = "" := by
                simpa using h
              exact absurd hempty hs0
  · intro env count i hc hprev h1 h2 t hex
    rw [processFile_ok env count initialState hc]
    obtain ⟨img, himg, hrec⟩ := loop_final_record env count 1 _ i h1
      (by omega) (fun k hk1 hk2 => hprev k hk1 (by omega))
    have hfind : recordOf (loopAux env 1 count
          (allocUpdate count (initUpdate initialState))).2 i
        = some (processedRec env i img
            { pageNumber := i
              content := ""
              status := .pending
              imageUrl := none }) := by
      rw [hrec, recordOf_alloc count i h1 h2 _, Option.map_some']
    have hstatus : (processedRec env i img
        { pageNumber := i
          content := ""
          status := .pending
          imageUrl := none }).status = PageStatus.completed := by
      unfold processedRec
      rw [hex]
    have hcontent : (processedRec env i img
        { pageNumber := i
          content := ""
          status := .pending
          imageUrl := none }).content = t := by
      unfold processedRec
      rw [hex]
    refine ⟨_, hfind, hstatus, hcontent, ?_⟩
    refine List.mem_map_of_mem (fun q => q.content)
      (List.mem_filter.2 ⟨List.mem_of_find?_eq_some hfind, ?_⟩)
    simp [hstatus]

/-- C10 witness: a 1-page document whose backend response text is empty
yields a completed page whose content is the fallback string, present in
the transcript's content list. -/
theorem c10_no_empty_content_witness :
    ¬ ("No content extracted." : String) = ""
      ∧ ∃ r, recordOf (processFile envEmpty initialState).2 1 = some r
          ∧ r.status = PageStatus.completed
          ∧ r.content = "No content extracted."
          ∧ r.content ∈ ((processFile envEmpty initialState).2.results.filter
              (fun q => q.status == PageStatus.completed)).map
                (fun q => q.content) := by
  have h := c10_no_empty_content
  have h1 := h.1 (some "key") (.ok (some "")) "No content extracted." rfl
  have h2 := h.2 envEmpty 1 1 rfl (fun j hj1 hj2 => ⟨"preview", rfl⟩)
    (by omega) (by omega) "No content extracted." rfl
  exact ⟨h1.1, h2⟩

end DocuFlow
